import Mathlib

/-!
Verification of the TarangFX audio-bot session store, EQ configuration,
processing pipeline and download manager, as implemented in `bot.py`,
`database.py`, `audio_processor.py` and `download_manager.py`.

Conventions of the embedding:
* Python float values that the claims reason about (frequencies, gains,
  speeds, event-loop times) are modelled as rationals `ℚ`; the arithmetic
  the code performs on them (multiplication by 1000, comparisons with
  integer bounds) is exact on the decimal literals involved.
* Wall-clock instants (`datetime.utcnow()`, unix timestamps) are modelled
  as integers counting seconds; `timedelta(minutes=5)` is `300`.
* Python dicts with a fixed key vocabulary are modelled as structures of
  `Option` fields, `none` standing for an absent key (or an explicit
  `None` value where the code never distinguishes the two); `dict.get`
  with a default becomes `Option.getD`.
* The filesystem is a list of paths; `os.path.exists` is membership and
  `os.remove` removes every occurrence of the path.
-/

namespace TarangFX

/-- One parametric EQ band as stored in a session's `settings['eq']`
list by `eq_command` (bot.py): keys `freq`, `gain`, `q`. -/
structure EQBand where
  freq : ℚ
  gain : ℚ
  q : ℚ
  deriving DecidableEq, Repr

/-- The `settings` dict of a session. In the source this is a plain dict;
every field is optional because handlers build partial dicts (for example
`handle_format_selection` sends `{'settings': {'format': code}}`). -/
structure SettingsDict where
  format : Option String := none
  bitrate : Option String := none
  sample_rate : Option Int := none
  channels : Option Int := none
  bass_boost : Option Int := none
  normalize : Option Bool := none
  fade_in : Option ℚ := none
  fade_out : Option ℚ := none
  speed : Option ℚ := none
  eq : Option (List EQBand) := none
  effects : Option (List String) := none
  deriving DecidableEq, Repr

/-- The settings dict with no keys set. -/
def emptySettings : SettingsDict := {}

/-- The default settings dict written by `_create_default_session`
(bot.py 88-108) and `InMemorySessionManager.create_session`
(database.py 195-220); both enumerate exactly these values. -/
def defaultSettings : SettingsDict :=
  { format := some "mp3"
    bitrate := some "320k"
    sample_rate := some 48000
    channels := some 2
    bass_boost := some 0
    normalize := some false
    fade_in := some 0
    fade_out := some 0
    speed := some 1
    eq := some []
    effects := some [] }

/-- A session dict. Used uniformly for durable-backend rows (which carry
an `id`), in-memory sessions and the local default session; fields a
given path never sets stay `none`, mirroring a missing dict key. -/
structure Session where
  id : Option Int := none
  user_id : Int
  file_path : Option String := none
  original_filename : Option String := none
  file_info : List (String × String) := []
  settings : Option SettingsDict := none
  created_at : Option Int := none
  updated_at : Option Int := none
  expires_at : Option Int := none
  deriving DecidableEq, Repr

/-- The partial-update dicts the bot passes to `update_user_session`:
only the keys `file_path`, `original_filename`, `file_info` and
`settings` are ever sent (bot.py 245, 305-309, 459-461, 478, ...). An
outer `some` means the key is present in the update dict. -/
structure SessionUpdates where
  file_path : Option (Option String) := none
  original_filename : Option (Option String) := none
  file_info : Option (List (String × String)) := none
  settings : Option SettingsDict := none
  deriving DecidableEq, Repr

/-- Top-level dict merge `session.update(updates)` /
`table.update(updates)`: each key present in the update replaces the
session's value wholesale (so a partial inner settings dict replaces the
whole stored settings dict). Timestamps are never part of an update dict
sent by the bot, so they are untouched here. -/
def mergeSession (s : Session) (u : SessionUpdates) : Session :=
  { s with
    file_path := u.file_path.getD s.file_path
    original_filename := u.original_filename.getD s.original_filename
    file_info := u.file_info.getD s.file_info
    settings :=
      match u.settings with
      | some st => some st
      | none => s.settings }

/-- Session TTL: `timedelta(minutes=5)` in seconds. -/
def ttlSeconds : Int := 300

/-- Liveness test used by reads: `expires_at > now`. A missing
`expires_at` compares as `datetime.min` (database.py 189), which is below
any realistic `now`, hence `false`. -/
def sessionLive (s : Session) (now : Int) : Bool :=
  match s.expires_at with
  | some e => now < e
  | none => false

/-- Sweep test used by the cleanup paths: `expires_at < now`
(database.py 148, 242). A missing `expires_at` compares as
`datetime.min`, hence below any realistic `now`: `true`. -/
def sessionSweepable (s : Session) (now : Int) : Bool :=
  match s.expires_at with
  | some e => e < now
  | none => true

/-- The in-memory backend's `self.sessions` dict, keyed by user id. -/
abbrev MemStore := List (Int × Session)

/-- Dict lookup `self.sessions.get(user_id)`. -/
def memLookup (st : MemStore) (uid : Int) : Option Session :=
  (st.find? (fun p => p.1 = uid)).map Prod.snd

/-- Dict assignment `self.sessions[user_id] = s`. -/
def memSet : MemStore → Int → Session → MemStore
  | [], uid, s => [(uid, s)]
  | (k, v) :: rest, uid, s =>
      if k = uid then (uid, s) :: rest else (k, v) :: memSet rest uid s

/-- Dict deletion `del self.sessions[user_id]`. -/
def memErase (st : MemStore) (uid : Int) : MemStore :=
  st.filter (fun p => !(p.1 = uid : Bool))

/-- `InMemorySessionManager.get_session` (database.py 186-193): returns
the session when live; an expired entry is deleted opportunistically and
`None` is returned. The (possibly shrunk) store is returned alongside. -/
def memGetSession (st : MemStore) (uid now : Int) : Option Session × MemStore :=
  match memLookup st uid with
  | none => (none, st)
  | some s =>
      if sessionLive s now then (some s, st) else (none, memErase st uid)

/-- The fresh session built by `InMemorySessionManager.create_session`
with no kwargs (as called from bot.py 50). -/
def memDefaultSession (uid now : Int) : Session :=
  { user_id := uid
    file_path := none
    original_filename := none
    file_info := []
    settings := some defaultSettings
    created_at := some now
    updated_at := some now
    expires_at := some (now + ttlSeconds) }

/-- `InMemorySessionManager.create_session` (database.py 195-220). -/
def memCreateSession (st : MemStore) (uid now : Int) : Session × MemStore :=
  (memDefaultSession uid now, memSet st uid (memDefaultSession uid now))

/-- `InMemorySessionManager.update_session` (database.py 222-229):
top-level dict merge, then `updated_at`/`expires_at` are refreshed. The
only guard is `user_id in self.sessions` — expiry is not checked. -/
def memUpdateSession (st : MemStore) (uid : Int) (u : SessionUpdates) (now : Int) :
    Bool × MemStore :=
  match memLookup st uid with
  | none => (false, st)
  | some s =>
      (true,
        memSet st uid
          { mergeSession s u with
            updated_at := some now
            expires_at := some (now + ttlSeconds) })

/-- `InMemorySessionManager.delete_session` (database.py 231-236). -/
def memDeleteSession (st : MemStore) (uid : Int) : Bool × MemStore :=
  match memLookup st uid with
  | none => (false, st)
  | some _ => (true, memErase st uid)

/-- `InMemorySessionManager.cleanup_expired` (database.py 238-245):
removes every sweepable entry from the dict and returns the count. No
other effect: in particular it touches no files. -/
def memCleanupExpired (st : MemStore) (now : Int) : Nat × MemStore :=
  ((st.filter (fun p => sessionSweepable p.2 now)).length,
    st.filter (fun p => !sessionSweepable p.2 now))

/-- The durable backend's `user_sessions` table: a list of rows, each a
session dict carrying an `id`. -/
abbrev DbTable := List Session

/-- The `order('updated_at', desc=True).limit(1)` step of
`DatabaseManager.get_user_session`: picks a row with maximal
`updated_at` (the earliest such row on ties). -/
def pickLatest : List Session → Option Session
  | [] => none
  | s :: rest =>
      match pickLatest rest with
      | none => some s
      | some t => if s.updated_at.getD 0 < t.updated_at.getD 0 then some t else some s

/-- `DatabaseManager.get_user_session` (database.py 48-67): selects the
rows with this `user_id` whose `expires_at` is strictly in the future
and returns the most recently updated one, if any. -/
def dbGetUserSession (tbl : DbTable) (uid now : Int) : Option Session :=
  pickLatest (tbl.filter (fun s => (s.user_id = uid : Bool) && sessionLive s now))

/-- `DatabaseManager.create_user_session` as called from bot.py 44 (no
file arguments): the insert payload carries `user_id`, a `None`
`file_path` and `original_filename`, an empty `file_info`, and the three
timestamps — and no `settings` key at all (database.py 81-89). The
response echoes the inserted row (with its fresh `id`); `insertOk =
false` models the exception path that returns `None` and leaves the
table unchanged. -/
def dbCreateUserSession (tbl : DbTable) (uid now freshId : Int) (insertOk : Bool) :
    Option Session × DbTable :=
  if insertOk then
    let row : Session :=
      { id := some freshId
        user_id := uid
        file_path := none
        original_filename := none
        file_info := []
        settings := none
        created_at := some now
        updated_at := some now
        expires_at := some (now + ttlSeconds) }
    (some row, tbl ++ [row])
  else (none, tbl)

/-- `DatabaseManager.update_user_session` (database.py 103-121): merges
the update dict into every row with this `id` and reports whether
any row matched. It does not touch `updated_at` or `expires_at`. -/
def dbUpdateUserSession (tbl : DbTable) (sid : Int) (u : SessionUpdates) :
    Bool × DbTable :=
  (tbl.any (fun s => s.id = some sid),
    tbl.map (fun s => if s.id = some sid then mergeSession s u else s))

/-- `DatabaseManager.delete_user_session` (database.py 123-138). -/
def dbDeleteUserSession (tbl : DbTable) (sid : Int) : DbTable :=
  tbl.filter (fun s => !(s.id = some sid : Bool))

/-- `DatabaseManager.cleanup_expired_sessions` (database.py 140-157):
deletes every row with `expires_at < now` and returns the count. Like
the in-memory sweep it touches no files. -/
def dbCleanupExpired (tbl : DbTable) (now : Int) : Nat × DbTable :=
  ((tbl.filter (fun s => sessionSweepable s now)).length,
    tbl.filter (fun s => !sessionSweepable s now))

/-- The local default session `_create_default_session` (bot.py 88-108):
carries the default settings but no `id` and no timestamps. -/
def createDefaultSession (uid : Int) : Session :=
  { user_id := uid
    file_path := none
    original_filename := none
    file_info := []
    settings := some defaultSettings }

/-- `get_user_session` (bot.py 37-50), durable branch: return the live
session if one exists, otherwise insert a fresh one; if the insert
fails, fall back to the local default session. -/
def botGetUserSessionDb (tbl : DbTable) (uid now freshId : Int) (insertOk : Bool) :
    Session × DbTable :=
  match dbGetUserSession tbl uid now with
  | some s => (s, tbl)
  | none =>
      match dbCreateUserSession tbl uid now freshId insertOk with
      | (some ns, tbl1) => (ns, tbl1)
      | (none, tbl1) => (createDefaultSession uid, tbl1)

/-- `get_user_session` (bot.py 37-50), in-memory branch. -/
def botGetUserSessionMem (st : MemStore) (uid now : Int) : Session × MemStore :=
  match memGetSession st uid now with
  | (some s, st1) => (s, st1)
  | (none, st1) => memCreateSession st1 uid now

/-- `update_user_session` (bot.py 53-61), durable branch: look the live
session up first, then update by its `id`; `false` when no live session
exists. -/
def botUpdateUserSessionDb (tbl : DbTable) (uid now : Int) (u : SessionUpdates) :
    Bool × DbTable :=
  match dbGetUserSession tbl uid now with
  | some s => dbUpdateUserSession tbl (s.id.getD 0) u
  | none => (false, tbl)

/-- `update_user_session` (bot.py 53-61), in-memory branch. -/
def botUpdateUserSessionMem (st : MemStore) (uid : Int) (u : SessionUpdates) (now : Int) :
    Bool × MemStore :=
  memUpdateSession st uid u now

/-- Removal of a path from the filesystem, `os.remove` guarded by
`os.path.exists`. -/
def removeFile : List String → String → List String
  | [], _ => []
  | q :: rest, p => if q = p then removeFile rest p else q :: removeFile rest p

/-- `delete_user_session` (bot.py 64-85), in-memory branch: if a live
session exists, best-effort-delete its `file_path` (`removeOk = false`
models an `os.remove` error, which is swallowed) and then delete the
session itself. -/
def botDeleteUserSessionMem (st : MemStore) (fs : List String) (uid now : Int)
    (removeOk : Bool) : MemStore × List String :=
  match memGetSession st uid now with
  | (none, st1) => (st1, fs)
  | (some s, st1) =>
      let fs1 :=
        match s.file_path with
        | some fp => if fp ∈ fs then (if removeOk then removeFile fs fp else fs) else fs
        | none => fs
      ((memDeleteSession st1 uid).2, fs1)

/-- `delete_user_session` (bot.py 64-85), durable branch. -/
def botDeleteUserSessionDb (tbl : DbTable) (fs : List String) (uid now : Int)
    (removeOk : Bool) : DbTable × List String :=
  match dbGetUserSession tbl uid now with
  | none => (tbl, fs)
  | some s =>
      let fs1 :=
        match s.file_path with
        | some fp => if fp ∈ fs then (if removeOk then removeFile fs fp else fs) else fs
        | none => fs
      (dbDeleteUserSession tbl (s.id.getD 0), fs1)

/-- The periodic sweep iteration for the in-memory backend
(`cleanup_expired_sessions`, bot.py 111-123): it only calls
`fallback_sessions.cleanup_expired()`, which deletes dict entries; no
code on this path removes files, so the filesystem passes through
unchanged. -/
def botCleanupSweepMem (st : MemStore) (fs : List String) (now : Int) :
    MemStore × List String :=
  ((memCleanupExpired st now).2, fs)

/-- The session-mutation suffix of `handle_audio` (bot.py 292-309) on
the in-memory backend: the freshly downloaded file `newPath` is on disk;
the session is fetched (created if absent) and its `file_path`,
`original_filename` and `file_info` are overwritten with the new
values. Nothing on this path deletes the previously stored file. -/
def handleAudioIngestMem (st : MemStore) (fs : List String) (uid now : Int)
    (newPath newName : String) (info : List (String × String)) :
    MemStore × List String :=
  let fs1 := newPath :: fs
  let st1 := (botGetUserSessionMem st uid now).2
  let st2 :=
    (botUpdateUserSessionMem st1 uid
      { file_path := some (some newPath)
        original_filename := some (some newName)
        file_info := some info } now).2
  (st2, fs1)

/-- One regex match of `--(\d+\.?\d*)([kmKM]?)hz\s+([+-]\d+\.?\d*)db`
(bot.py 199-200): the numeric frequency text, the optional unit letter,
and the signed gain text. -/
structure EqMatch where
  freqVal : ℚ
  unit : String
  gainVal : ℚ
  deriving DecidableEq, Repr

/-- Frequency after unit handling (bot.py 217-220): only a `k`/`K`
suffix multiplies by 1000 (`freq_unit.lower() == 'k'`, stated here as
membership in `{k, K}`, which on the regex alphabet `[kmKM]?` is the
same test); an `m`/`M` suffix, though the regex admits it, is ignored. -/
def parseFreq (m : EqMatch) : ℚ :=
  if m.unit = "k" ∨ m.unit = "K" then m.freqVal * 1000 else m.freqVal

/-- The EQ band built from one accepted match (bot.py 236). -/
def parseBand (m : EqMatch) : EQBand :=
  { freq := parseFreq m, gain := m.gainVal, q := 1 }

/-- Bounds check applied to each parsed pair (bot.py 224-234). -/
def eqMatchInRange (m : EqMatch) : Prop :=
  20 ≤ parseFreq m ∧ parseFreq m ≤ 40000 ∧ -20 ≤ m.gainVal ∧ m.gainVal ≤ 20

instance (m : EqMatch) : Decidable (eqMatchInRange m) := by
  unfold eqMatchInRange; infer_instance

/-- Result of the validation loop of `eq_command`. -/
inductive EqParse
  | rejectedFreq (f : ℚ)
  | rejectedGain (g : ℚ)
  | bands (l : List EQBand)
  deriving DecidableEq, Repr

/-- The validation loop of `eq_command` (bot.py 215-236): walk the
regex matches in order; the first out-of-range frequency or gain aborts the
whole command; otherwise each pair appends exactly one band. -/
def parseEqMatches : List EqMatch → List EQBand → EqParse
  | [], acc => .bands acc
  | m :: rest, acc =>
      if 20 ≤ parseFreq m ∧ parseFreq m ≤ 40000 then
        if -20 ≤ m.gainVal ∧ m.gainVal ≤ 20 then
          parseEqMatches rest (acc ++ [parseBand m])
        else .rejectedGain m.gainVal
      else .rejectedFreq (parseFreq m)

/-- Observable outcome of `/eq`. -/
inductive EqCmdOutcome
  | noFile
  | usage
  | outOfRange
  | noValid
  | applied
  deriving DecidableEq, Repr

/-- `eq_command` (bot.py 180-256) on the in-memory backend: fetch (or
create) the session; require a stored file; require at least one regex
match; validate every pair, rejecting the whole command on the first
out-of-range value; on success replace `settings['eq']` with the parsed
bands (keeping every other settings key) and store the session back. -/
def eqCommandMem (st : MemStore) (uid : Int) (ms : List EqMatch) (now : Int) :
    EqCmdOutcome × MemStore :=
  match botGetUserSessionMem st uid now with
  | (session, st1) =>
    match session.file_path with
    | none => (.noFile, st1)
    | some _ =>
        match ms with
        | [] => (.usage, st1)
        | _ :: _ =>
            match parseEqMatches ms [] with
            | .rejectedFreq _ => (.outOfRange, st1)
            | .rejectedGain _ => (.outOfRange, st1)
            | .bands l =>
                if l.isEmpty then (.noValid, st1)
                else
                  let settings := session.settings.getD emptySettings
                  let settings1 := { settings with eq := some l }
                  ((.applied),
                    (botUpdateUserSessionMem st1 uid { settings := some settings1 } now).2)

/-- Callback-data tag stripping, `data.replace("format_", "")` and
friends: for the single-occurrence prefix-tagged callback strings the
handlers receive, this equals dropping the tag prefix. -/
def stripTag (tag s : String) : String :=
  if tag.data.isPrefixOf s.data then ⟨s.data.drop tag.data.length⟩ else s

/-- `handle_format_selection` (bot.py 449-468) on the in-memory backend:
`format_more` only shows a menu; otherwise the update dict
`{'settings': {'format': code}}` is sent, replacing the whole stored
settings dict with one that has only `format` set. The session is not
read first. -/
def handleFormatSelection (st : MemStore) (uid : Int) (data : String) (now : Int) :
    MemStore :=
  if data = "format_more" then st
  else
    (botUpdateUserSessionMem st uid
      { settings := some { emptySettings with format := some (stripTag "format_" data) } }
      now).2

/-- `handle_bitrate_selection` (bot.py 471-487): read the full settings
dict, set `bitrate`, write the whole dict back. -/
def handleBitrateSelection (st : MemStore) (uid : Int) (data : String) (now : Int) :
    MemStore :=
  match botGetUserSessionMem st uid now with
  | (session, st1) =>
      let settings := session.settings.getD emptySettings
      let settings1 := { settings with bitrate := some (stripTag "bitrate_" data) }
      (botUpdateUserSessionMem st1 uid { settings := some settings1 } now).2

/-- `handle_sample_rate_selection` (bot.py 490-498); `int(sample)` on
the controlled callback strings is modelled by `String.toInt?`. -/
def handleSampleRateSelection (st : MemStore) (uid : Int) (data : String) (now : Int) :
    MemStore :=
  match botGetUserSessionMem st uid now with
  | (session, st1) =>
      let settings := session.settings.getD emptySettings
      let settings1 :=
        { settings with sample_rate := some ((stripTag "sample_" data).toInt?.getD 0) }
      (botUpdateUserSessionMem st1 uid { settings := some settings1 } now).2

/-- `handle_channel_selection` (bot.py 501-509). -/
def handleChannelSelection (st : MemStore) (uid : Int) (data : String) (now : Int) :
    MemStore :=
  match botGetUserSessionMem st uid now with
  | (session, st1) =>
      let settings := session.settings.getD emptySettings
      let settings1 :=
        { settings with channels := some ((stripTag "channels_" data).toInt?.getD 0) }
      (botUpdateUserSessionMem st1 uid { settings := some settings1 } now).2

/-- `handle_bass_boost_selection` (bot.py 512-520). -/
def handleBassBoostSelection (st : MemStore) (uid : Int) (data : String) (now : Int) :
    MemStore :=
  match botGetUserSessionMem st uid now with
  | (session, st1) =>
      let settings := session.settings.getD emptySettings
      let settings1 :=
        { settings with bass_boost := some ((stripTag "bass_" data).toInt?.getD 0) }
      (botUpdateUserSessionMem st1 uid { settings := some settings1 } now).2

/-- `handle_effect_selection` (bot.py 523-536): append the effect name
to `settings['effects']` unless already present; no update is issued in
the duplicate case. -/
def handleEffectSelection (st : MemStore) (uid : Int) (data : String) (now : Int) :
    MemStore :=
  match botGetUserSessionMem st uid now with
  | (session, st1) =>
      let eff := stripTag "effect_" data
      let settings := session.settings.getD emptySettings
      let effs := settings.effects.getD []
      if eff ∈ effs then st1
      else
        (botUpdateUserSessionMem st1 uid
          { settings := some { settings with effects := some (effs ++ [eff]) } } now).2

/-- The four pipeline stages of `process_audio`. -/
inductive Stage
  | eq
  | effects
  | normalize
  | convert
  deriving DecidableEq, Repr

/-- One engine invocation recorded by a run: which stage ran, the
artifact it consumed and the artifact path it was asked to produce. -/
structure StageExec where
  stage : Stage
  input : String
  output : String
  deriving DecidableEq, Repr

/-- Oracle for the engine calls of one run: whether each stage's
processor call reports success, and whether the conversion output file
exists afterwards (`process_audio` checks both, bot.py 608). The
eq/effects/normalize processors write their output as their last step,
so their output file exists exactly when they report success. -/
structure PipelineOutcome where
  eqOk : Bool
  effectsOk : Bool
  normOk : Bool
  convertOk : Bool
  convertFileExists : Bool
  deriving DecidableEq, Repr

/-- Result of one `process_audio` run: whether it reached the success
reply, the filesystem afterwards, and the engine-invocation trace. -/
structure RunResult where
  ok : Bool
  fs : List String
  trace : List StageExec
  deriving DecidableEq, Repr

/-- `f"downloads/{user_id}_{timestamp}_eq.wav"` (bot.py 563). -/
def eqFileName (uid ts : Int) : String :=
  "downloads/" ++ toString uid ++ "_" ++ toString ts ++ "_eq.wav"

/-- `f"downloads/{user_id}_{timestamp}_effects.wav"` (bot.py 575). -/
def effectsFileName (uid ts : Int) : String :=
  "downloads/" ++ toString uid ++ "_" ++ toString ts ++ "_effects.wav"

/-- `f"downloads/{user_id}_{timestamp}_norm.wav"` (bot.py 584). -/
def normFileName (uid ts : Int) : String :=
  "downloads/" ++ toString uid ++ "_" ++ toString ts ++ "_norm.wav"

/-- `f"downloads/{user_id}_{timestamp}_output.{output_format}"`
(bot.py 592). -/
def outputFileName (uid ts : Int) (fmt : String) : String :=
  "downloads/" ++ toString uid ++ "_" ++ toString ts ++ "_output." ++ fmt

/-- Python truthiness of `settings.get('eq')` (bot.py 562): a missing
key or an empty list is falsy. -/
def eqEnabled (st : SettingsDict) : Bool :=
  match st.eq with
  | some l => !l.isEmpty
  | none => false

/-- Python truthiness of `settings.get('effects')` (bot.py 574). -/
def effectsEnabled (st : SettingsDict) : Bool :=
  match st.effects with
  | some l => !l.isEmpty
  | none => false

/-- Python truthiness of `settings.get('normalize')` (bot.py 583). -/
def normalizeEnabled (st : SettingsDict) : Bool :=
  st.normalize.getD false

/-- Running state of the stage chain: the current artifact, the
`temp_files` list, the filesystem and the invocation trace. -/
structure PipeState where
  cur : String
  temps : List String
  fs : List String
  trace : List StageExec
  deriving DecidableEq, Repr

/-- An optional non-aborting stage of `process_audio` (effects, bot.py
574-581, and normalization, 583-590): when enabled, the processor is
invoked; on success the output becomes the current artifact and joins
`temp_files`; on failure the run silently continues with the previous
artifact. -/
def optStage (stage : Stage) (enabled ok : Bool) (outFile : String)
    (ps : PipeState) : PipeState :=
  if enabled then
    if ok then
      { cur := outFile
        temps := ps.temps ++ [outFile]
        fs := outFile :: ps.fs
        trace := ps.trace ++ [⟨stage, ps.cur, outFile⟩] }
    else { ps with trace := ps.trace ++ [⟨stage, ps.cur, outFile⟩] }
  else ps

/-- Remove each of the given paths (`for f in temp_files: if
os.path.exists(f): os.remove(f)`). -/
def removeFiles (fs : List String) (ps : List String) : List String :=
  ps.foldl removeFile fs

/-- The conversion-and-cleanup tail of `process_audio` (bot.py
592-643): `convert_audio` runs on the then-current artifact; if it
reports failure or its output file does not exist, only `temp_files`
are deleted (a partially written output stays) and the run fails;
otherwise the upload happens, then the output file and `temp_files`
are deleted and the run succeeds. `c` is the conversion's success
flag, `x` whether its output file exists afterwards, `tr` the
invocation trace including the conversion call. -/
def convertStep (ps3 : PipeState) (outF : String) (c x : Bool)
    (tr : List StageExec) : RunResult :=
  let fs4 := if x then outF :: ps3.fs else ps3.fs
  if !c || !(decide (outF ∈ fs4)) then ⟨false, removeFiles fs4 ps3.temps, tr⟩
  else ⟨true, removeFiles (removeFile fs4 outF) ps3.temps, tr⟩

/-- `process_audio` (bot.py 539-654), from the point where the stage
chain starts (bot.py 558) to the cleanup after upload or failure. EQ
failure returns at once without touching `temp_files` (bot.py 570-572);
effects and normalization failures fall through; conversion always runs
on the then-current artifact; a failed or file-less conversion deletes
only `temp_files` (bot.py 608-613); success uploads, deletes the output
file and then `temp_files` (bot.py 639-643). The exception handler
(bot.py 652-654) performs no cleanup but is reachable only from
messaging calls, which this model does not fail. -/
def processAudio (fs0 : List String) (input : String) (st : SettingsDict)
    (oc : PipelineOutcome) (uid ts : Int) : RunResult :=
  let eqF := eqFileName uid ts
  let fxF := effectsFileName uid ts
  let nmF := normFileName uid ts
  let outF := outputFileName uid ts (st.format.getD "mp3")
  if eqEnabled st && !oc.eqOk then
    { ok := false, fs := fs0, trace := [⟨Stage.eq, input, eqF⟩] }
  else
    let ps1 : PipeState :=
      if eqEnabled st then ⟨eqF, [eqF], eqF :: fs0, [⟨Stage.eq, input, eqF⟩]⟩
      else ⟨input, [], fs0, []⟩
    let ps2 := optStage Stage.effects (effectsEnabled st) oc.effectsOk fxF ps1
    let ps3 := optStage Stage.normalize (normalizeEnabled st) oc.normOk nmF ps2
    convertStep ps3 outF oc.convertOk oc.convertFileExists
      (ps3.trace ++ [⟨Stage.convert, ps3.cur, outF⟩])

/-- Which stages a settings dict enables; conversion is unconditional
(bot.py 594). -/
def stageEnabled (st : SettingsDict) : Stage → Bool
  | .eq => eqEnabled st
  | .effects => effectsEnabled st
  | .normalize => normalizeEnabled st
  | .convert => true

/-- The fixed stage order of `process_audio`. -/
def stageOrder : List Stage := [Stage.eq, Stage.effects, Stage.normalize, Stage.convert]

/-- Artifact chaining of a trace: the first invocation consumes `cur`,
and each invocation consumes the previous one's output. -/
def chainedFrom : String → List StageExec → Bool
  | _, [] => true
  | cur, e :: rest => (e.input == cur) && chainedFrom e.output rest

/-- Filter shapes `apply_eq` builds (audio_processor.py 88-94). -/
inductive EqFilter
  | lowShelf (freq gain : ℚ)
  | highShelf (freq gain : ℚ)
  | peak (freq gain q : ℚ)
  deriving DecidableEq, Repr

/-- Per-band behaviour of `AdvancedAudioProcessor.apply_eq`
(audio_processor.py 83-94): a band inside both ranges contributes one
filter, shaped by its frequency; a band outside either range contributes
nothing — there is no `else` branch. -/
def bandFilter (b : EQBand) : Option EqFilter :=
  if 20 ≤ b.freq ∧ b.freq ≤ 40000 ∧ -20 ≤ b.gain ∧ b.gain ≤ 20 then
    some
      (if b.freq < 200 then .lowShelf b.freq b.gain
       else if b.freq > 8000 then .highShelf b.freq b.gain
       else .peak b.freq b.gain b.q)
  else none

/-- `AdvancedAudioProcessor.apply_eq` (audio_processor.py 64-107): the
cascade of filters appended by the loop, and the return value. Absent an
I/O or resampling exception — the only failure path, independent of the
band values — the function writes the output and returns `True`. -/
def applyEq (bands : List EQBand) : List EqFilter × Bool :=
  (bands.filterMap bandFilter, true)

/-- Outcome of one `client.download_media` attempt inside
`download_with_retry` (download_manager.py 43-64): a returned path, a
completed call whose file is missing (returns `None`, no retry), or one
of the raised errors — the three retryable classes or a non-retryable
exception. -/
inductive AttemptResult
  | ok (path : String)
  | okMissing
  | timeout
  | conn
  | flood (wait : Nat)
  | fatal
  deriving DecidableEq, Repr

/-- Whether tenacity's `retry_if_exception_type((TimeoutError,
ConnectionError, FloodWait))` classifies the outcome as retryable. -/
def transientAttempt : AttemptResult → Bool
  | .timeout => true
  | .conn => true
  | .flood _ => true
  | _ => false

/-- The explicit sleep performed by the `except FloodWait` handler
(download_manager.py 57-60) before the exception is re-raised. -/
def floodSleep : AttemptResult → List Nat
  | .flood w => [w]
  | _ => []

/-- Tenacity's `wait_exponential(multiplier=1, min=4, max=60)` after the
n-th attempt (1-based): `2^n` clamped into `[4, 60]`. -/
def backoff (n : Nat) : Nat :=
  max 4 (min (2 ^ n) 60)

/-- Result of `download_with_retry`: attempts actually made, the sleeps
performed in order, and `some (some path)` for success, `some none` for
the completed-but-missing-file return, `none` for a raised error
(retry exhaustion or a non-retryable exception). -/
structure RetryRun where
  attempts : Nat
  sleeps : List Nat
  result : Option (Option String)
  deriving DecidableEq, Repr

/-- The tenacity-driven retry loop around `download_with_retry`
(download_manager.py 27-64), with `remaining` retries left after the
current attempt. A retryable exception with retries left sleeps the
FloodWait mandate (if any) plus the exponential backoff, then retries;
with none left it surfaces the error (the FloodWait handler still sleeps
its mandate first). A non-retryable exception surfaces at once. -/
def retryGo (oracle : Nat → AttemptResult) : Nat → Nat → List Nat → RetryRun
  | attempt, 0, sleeps =>
      match oracle attempt with
      | .ok p => ⟨attempt, sleeps, some (some p)⟩
      | .okMissing => ⟨attempt, sleeps, some none⟩
      | .fatal => ⟨attempt, sleeps, none⟩
      | .timeout => ⟨attempt, sleeps, none⟩
      | .conn => ⟨attempt, sleeps, none⟩
      | .flood w => ⟨attempt, sleeps ++ [w], none⟩
  | attempt, r + 1, sleeps =>
      match oracle attempt with
      | .ok p => ⟨attempt, sleeps, some (some p)⟩
      | .okMissing => ⟨attempt, sleeps, some none⟩
      | .fatal => ⟨attempt, sleeps, none⟩
      | .timeout => retryGo oracle (attempt + 1) r (sleeps ++ [backoff attempt])
      | .conn => retryGo oracle (attempt + 1) r (sleeps ++ [backoff attempt])
      | .flood w => retryGo oracle (attempt + 1) r (sleeps ++ [w, backoff attempt])

/-- `download_with_retry` under `stop_after_attempt(5)`: attempt 1 with
4 retries in reserve. -/
def downloadWithRetry (oracle : Nat → AttemptResult) : RetryRun :=
  retryGo oracle 1 4 []

/-- The throttle inside `download_with_progress.progress`
(download_manager.py 79-102): starting from `last_update_time` (`0` at
download start), a report less than 2 seconds after the last emitted
update returns early; otherwise the status edit is emitted and the clock
resets. Reports are `(event-loop time, bytes_done, bytes_total)`. -/
def progressRun : ℚ → List (ℚ × Nat × Nat) → List (ℚ × Nat × Nat)
  | _, [] => []
  | last, r :: rest =>
      if r.1 - last < 2 then progressRun last rest
      else r :: progressRun r.1 rest

/-- The sleeps a fully transient run performs: after each of the first
`remaining` attempts, the FloodWait mandate (if any) plus the backoff;
after the final attempt, only the FloodWait mandate. -/
def expSleeps (oracle : Nat → AttemptResult) : Nat → Nat → List Nat
  | attempt, 0 => floodSleep (oracle attempt)
  | attempt, r + 1 =>
      floodSleep (oracle attempt) ++ backoff attempt :: expSleeps oracle (attempt + 1) r

/-! ### Helper lemmas -/

theorem memLookup_memSet_self (st : MemStore) (uid : Int) (s : Session) :
    memLookup (memSet st uid s) uid = some s := by
  induction st with
  | nil => simp [memSet, memLookup, List.find?]
  | cons p rest ih =>
      obtain ⟨k, v⟩ := p
      by_cases hk : k = uid
      · subst hk
        simp [memSet, memLookup, List.find?]
      · simpa [memSet, hk, memLookup, List.find?] using ih

theorem memGetSession_live (st : MemStore) (uid now : Int) (s : Session)
    (h : memLookup st uid = some s) (hl : sessionLive s now = true) :
    memGetSession st uid now = (some s, st) := by
  simp [memGetSession, h, hl]

theorem botGetUserSessionMem_live (st : MemStore) (uid now : Int) (s : Session)
    (h : memLookup st uid = some s) (hl : sessionLive s now = true) :
    botGetUserSessionMem st uid now = (s, st) := by
  simp [botGetUserSessionMem, memGetSession_live st uid now s h hl]

theorem memGetSession_fst_live (st : MemStore) (uid now : Int) (s : Session)
    (h : (memGetSession st uid now).1 = some s) : sessionLive s now = true := by
  unfold memGetSession at h
  cases hl : memLookup st uid with
  | none => simp [hl] at h
  | some s0 =>
      by_cases hlive : sessionLive s0 now
      · simp [hl, hlive] at h
        subst h
        exact hlive
      · simp [hl, hlive] at h

theorem pickLatest_mem (l : List Session) (s : Session) (h : pickLatest l = some s) :
    s ∈ l := by
  induction l with
  | nil => simp [pickLatest] at h
  | cons a rest ih =>
      unfold pickLatest at h
      cases hr : pickLatest rest with
      | none =>
          rw [hr] at h
          simp at h
          simp [h]
      | some t =>
          rw [hr] at h
          by_cases hcmp : a.updated_at.getD 0 < t.updated_at.getD 0
          · simp [hcmp] at h
            subst h
            exact List.mem_cons_of_mem _ (ih hr)
          · simp [hcmp] at h
            simp [h]

theorem dbGetUserSession_spec (tbl : DbTable) (uid now : Int) (s : Session)
    (h : dbGetUserSession tbl uid now = some s) :
    s ∈ tbl ∧ s.user_id = uid ∧ sessionLive s now = true := by
  have hmem := pickLatest_mem _ _ h
  rw [List.mem_filter] at hmem
  refine ⟨hmem.1, ?_, ?_⟩
  · have := hmem.2
    simp at this
    exact this.1
  · have := hmem.2
    simp at this
    exact this.2

theorem removeFile_cons_self (fs : List String) (p : String) :
    removeFile (p :: fs) p = removeFile fs p := by
  simp [removeFile]

theorem removeFile_cons_ne (fs : List String) (p q : String) (h : q ≠ p) :
    removeFile (q :: fs) p = q :: removeFile fs p := by
  simp [removeFile, h]

theorem removeFile_of_not_mem (fs : List String) (p : String) (h : p ∉ fs) :
    removeFile fs p = fs := by
  induction fs with
  | nil => rfl
  | cons a rest ih =>
      have ha : a ≠ p := fun hc => h (hc ▸ List.mem_cons_self a rest)
      have hrest : p ∉ rest := fun hc => h (List.mem_cons_of_mem a hc)
      simp [removeFile, ha, ih hrest]

theorem mem_removeFile (fs : List String) (p q : String) :
    q ∈ removeFile fs p ↔ q ∈ fs ∧ q ≠ p := by
  induction fs with
  | nil => simp [removeFile]
  | cons a rest ih =>
      by_cases ha : a = p
      · subst ha
        rw [removeFile_cons_self]
        rw [ih]
        constructor
        · rintro ⟨hq, hne⟩
          exact ⟨List.mem_cons_of_mem a hq, hne⟩
        · rintro ⟨hq, hne⟩
          rcases List.mem_cons.mp hq with h | h
          · exact absurd h hne
          · exact ⟨h, hne⟩
      · rw [removeFile_cons_ne _ _ _ ha]
        constructor
        · intro hq
          rcases List.mem_cons.mp hq with h | h
          · subst h
            exact ⟨List.mem_cons_self q rest, ha⟩
          · have := ih.mp h
            exact ⟨List.mem_cons_of_mem a this.1, this.2⟩
        · rintro ⟨hq, hne⟩
          rcases List.mem_cons.mp hq with h | h
          · subst h
            exact List.mem_cons_self q _
          · exact List.mem_cons_of_mem a (ih.mpr ⟨h, hne⟩)

/-! ### C10 -/

/-- C10: engine-level `apply_eq` silently skips a band whose frequency
is outside [20, 40000] or whose gain is outside [-20, 20]: removing such
a band from the input list changes neither the filter cascade nor the
(successful) return value, so every in-range band is still applied and
`apply_eq` never fails solely because a band is out of range. -/
theorem apply_eq_skips_out_of_range (l1 l2 : List EQBand) (b : EQBand)
    (h : ¬ (20 ≤ b.freq ∧ b.freq ≤ 40000 ∧ -20 ≤ b.gain ∧ b.gain ≤ 20)) :
    applyEq (l1 ++ b :: l2) = applyEq (l1 ++ l2) ∧
      (applyEq (l1 ++ b :: l2)).2 = true := by
  have hb : bandFilter b = none := by
    simp only [bandFilter, if_neg h]
  refine ⟨?_, rfl⟩
  simp [applyEq, List.filterMap_append, List.filterMap_cons, hb]

/-- Witness for C10 at a concrete input: the out-of-range band
(50000 Hz, +2 dB) is skipped while the in-range band (60 Hz, +3 dB)
before it is still applied. -/
theorem apply_eq_skips_out_of_range_witness :
    applyEq ([⟨60, 3, 1⟩] ++ (⟨50000, 2, 1⟩ : EQBand) :: []) =
        applyEq ([⟨60, 3, 1⟩] ++ []) ∧
      (applyEq ([⟨60, 3, 1⟩] ++ (⟨50000, 2, 1⟩ : EQBand) :: [])).2 = true :=
  apply_eq_skips_out_of_range [⟨60, 3, 1⟩] [] ⟨50000, 2, 1⟩ (by decide)

/-! ### C7 -/

/-- C7 counterexample: the claim states the final completion report
(`bytes_done = bytes_total`) is never suppressed by the 2-second
throttle, but `progress` has no such special case: with an update
emitted at event-loop time 5, the completion report at time 6 is
silently dropped. -/
theorem final_progress_report_suppressed :
    progressRun 0 [(5, 50, 100), (6, 100, 100)] = [(5, 50, 100)] ∧
      (6, 100, 100) ∉ progressRun 0 [(5, 50, 100), (6, 100, 100)] := by
  have h : progressRun 0 [(5, 50, 100), (6, 100, 100)] = [(5, 50, 100)] := by
    norm_num [progressRun]
  refine ⟨h, ?_⟩
  rw [h]
  decide

theorem progressRun_mem_lower (rs : List (ℚ × Nat × Nat)) :
    ∀ (last : ℚ) (x : ℚ × Nat × Nat), x ∈ progressRun last rs → last + 2 ≤ x.1 := by
  induction rs with
  | nil =>
      intro last x hx
      simp [progressRun] at hx
  | cons r rest ih =>
      intro last x hx
      unfold progressRun at hx
      by_cases hc : r.1 - last < 2
      · rw [if_pos hc] at hx
        exact ih last x hx
      · rw [if_neg hc] at hx
        rcases List.mem_cons.mp hx with h | h
        · subst h
          linarith [not_lt.mp hc]
        · have := ih r.1 x h
          have h2 : last + 2 ≤ r.1 := by linarith [not_lt.mp hc]
          linarith

/-- C7 (amended): the throttle does hold — the emitted status edits are
a subsequence of the transport's reports and any two consecutive emitted
updates are at least 2 seconds apart — but a completion report arriving
within 2 seconds of the previous update is suppressed like any other
report (see the counterexample); only the separate unconditional
"Download complete" edit of `download_with_progress` follows a
successful download. -/
theorem progress_updates_spaced (last : ℚ) (rs : List (ℚ × Nat × Nat)) :
    (progressRun last rs).Chain' (fun a b => a.1 + 2 ≤ b.1) ∧
      (progressRun last rs).Sublist rs := by
  constructor
  · induction rs generalizing last with
    | nil => simp [progressRun]
    | cons r rest ih =>
        unfold progressRun
        by_cases hc : r.1 - last < 2
        · rw [if_pos hc]
          exact ih last
        · rw [if_neg hc]
          rw [List.chain'_cons']
          refine ⟨?_, ih r.1⟩
          intro b hb
          exact progressRun_mem_lower rest r.1 b (List.mem_of_mem_head? hb)
  · induction rs generalizing last with
    | nil => simp [progressRun]
    | cons r rest ih =>
        unfold progressRun
        by_cases hc : r.1 - last < 2
        · rw [if_pos hc]
          exact (ih last).cons r
        · rw [if_neg hc]
          exact (ih r.1).cons₂ r

/-! ### C6 -/

/-- C6 counterexample: with every attempt failing as `FloodWait(100)`,
the sleeps are not "exactly the mandated duration before each retry":
the `except FloodWait` handler sleeps 100 and then tenacity additionally
sleeps the computed backoff (4, 4, 8, 16), so the realized sleep
sequence differs from the five mandated 100-second sleeps the claim
implies. -/
theorem floodwait_sleep_includes_backoff :
    downloadWithRetry (fun _ => .flood 100) =
        ⟨5, [100, 4, 100, 4, 100, 8, 100, 16, 100], none⟩ ∧
      ([100, 4, 100, 4, 100, 8, 100, 16, 100] : List Nat) ≠
        [100, 100, 100, 100, 100] := by
  exact ⟨by decide, by decide⟩

theorem retryGo_transient (oracle : Nat → AttemptResult) :
    ∀ (r attempt : Nat) (sleeps : List Nat),
      (∀ n, attempt ≤ n → n ≤ attempt + r → transientAttempt (oracle n) = true) →
      retryGo oracle attempt r sleeps =
        ⟨attempt + r, sleeps ++ expSleeps oracle attempt r, none⟩ := by
  intro r
  induction r with
  | zero =>
      intro attempt sleeps h
      have ha := h attempt le_rfl (Nat.le_add_right _ _)
      unfold retryGo
      cases ho : oracle attempt <;> rw [ho] at ha <;> simp [transientAttempt] at ha <;>
        simp [expSleeps, floodSleep, ho]
  | succ r ih =>
      intro attempt sleeps h
      have ha := h attempt le_rfl (Nat.le_add_right _ _)
      have hrest : ∀ n, attempt + 1 ≤ n → n ≤ attempt + 1 + r →
          transientAttempt (oracle n) = true := by
        intro n h1 h2
        exact h n (Nat.le_of_succ_le h1) (by omega)
      unfold retryGo
      cases ho : oracle attempt <;> rw [ho] at ha <;> simp [transientAttempt] at ha
      case timeout =>
        simp only [ho]
        rw [ih (attempt + 1) (sleeps ++ [backoff attempt]) hrest]
        simp [expSleeps, floodSleep, ho]
        all_goals omega
      case conn =>
        simp only [ho]
        rw [ih (attempt + 1) (sleeps ++ [backoff attempt]) hrest]
        simp [expSleeps, floodSleep, ho]
        all_goals omega
      case flood w =>
        simp only [ho]
        rw [ih (attempt + 1) (sleeps ++ [w, backoff attempt]) hrest]
        simp [expSleeps, floodSleep, ho]
        all_goals omega

/-- C6 (amended): with every attempt failing transiently,
`download_with_retry` makes exactly 5 attempts and surfaces the error
with no path returned, sleeping after the n-th attempt the exponential
backoff `max 4 (min 2^n 60)` — preceded, when the failure is a
FloodWait(w), by an additional sleep of exactly w (so the mandated wait
is added to, not substituted for, the backoff; the final attempt's
FloodWait still sleeps w before the error surfaces). A non-retryable
error fails on the first attempt with no sleeps. -/
theorem retry_semantics_amended :
    (∀ oracle : Nat → AttemptResult,
        (∀ n, 1 ≤ n → n ≤ 5 → transientAttempt (oracle n) = true) →
        downloadWithRetry oracle = ⟨5, expSleeps oracle 1 4, none⟩) ∧
      (∀ oracle : Nat → AttemptResult, oracle 1 = .fatal →
        downloadWithRetry oracle = ⟨1, [], none⟩) := by
  constructor
  · intro oracle h
    unfold downloadWithRetry
    rw [retryGo_transient oracle 4 1 [] (by intro n h1 h2; exact h n h1 (by omega))]
    rfl
  · intro oracle h
    unfold downloadWithRetry
    unfold retryGo
    rw [h]

/-- Witness for C6 (amended) at a concrete oracle: every attempt fails
as FloodWait(7); the run makes 5 attempts, fails and sleeps
`[7, 4, 7, 4, 7, 8, 7, 16, 7]`. -/
theorem retry_semantics_amended_witness :
    downloadWithRetry (fun _ => AttemptResult.flood 7) =
        ⟨5, expSleeps (fun _ => AttemptResult.flood 7) 1 4, none⟩ ∧
      expSleeps (fun _ => AttemptResult.flood 7) 1 4 = [7, 4, 7, 4, 7, 8, 7, 16, 7] :=
  ⟨retry_semantics_amended.1 (fun _ => AttemptResult.flood 7) (fun _ _ _ => rfl),
    by decide⟩

/-! ### C2 -/

theorem parseEqMatches_all (ms : List EqMatch) :
    ∀ acc, (∀ m ∈ ms, eqMatchInRange m) →
      parseEqMatches ms acc = .bands (acc ++ ms.map parseBand) := by
  induction ms with
  | nil =>
      intro acc _
      simp [parseEqMatches]
  | cons m rest ih =>
      intro acc hall
      obtain ⟨h1, h2, h3, h4⟩ := hall m (List.mem_cons_self m rest)
      unfold parseEqMatches
      rw [if_pos ⟨h1, h2⟩, if_pos ⟨h3, h4⟩]
      rw [ih (acc ++ [parseBand m]) (fun x hx => hall x (List.mem_cons_of_mem m hx))]
      simp

theorem parseEqMatches_reject :
    ∀ ms : List EqMatch, (∃ m ∈ ms, ¬ eqMatchInRange m) →
      ∀ acc l, parseEqMatches ms acc ≠ .bands l := by
  intro ms
  induction ms with
  | nil =>
      intro hbad
      simp at hbad
  | cons m rest ih =>
      intro hbad acc l
      unfold parseEqMatches
      by_cases hf : 20 ≤ parseFreq m ∧ parseFreq m ≤ 40000
      · rw [if_pos hf]
        by_cases hg : -20 ≤ m.gainVal ∧ m.gainVal ≤ 20
        · rw [if_pos hg]
          rcases hbad with ⟨x, hx, hnx⟩
          rcases List.mem_cons.mp hx with hxm | hxr
          · exact absurd (hxm ▸ ⟨hf.1, hf.2, hg.1, hg.2⟩ : eqMatchInRange x) hnx
          · exact ih ⟨x, hxr, hnx⟩ (acc ++ [parseBand m]) l
        · rw [if_neg hg]
          simp
      · rw [if_neg hf]
        simp

/-- C2: for a live session holding a file, `/eq` with at least one
parsed pair behaves as claimed — if every parsed frequency (after unit
scaling) lies in [20, 40000] and every gain in [-20, 20], the command is
accepted and the stored `eq` list becomes exactly one band per parsed
pair (all other settings keys and session fields are retained, with the
TTL refreshed); if any parsed value is out of bounds, the whole command
is rejected and the store is left completely unchanged. -/
theorem eq_command_bounds (st : MemStore) (uid now : Int) (s : Session) (fp : String)
    (ms : List EqMatch)
    (h : memLookup st uid = some s) (hl : sessionLive s now = true)
    (hfp : s.file_path = some fp) (hne : ms ≠ []) :
    ((∀ m ∈ ms, eqMatchInRange m) →
      eqCommandMem st uid ms now =
        (.applied,
          memSet st uid
            { s with
              settings := some
                { s.settings.getD emptySettings with eq := some (ms.map parseBand) }
              updated_at := some now
              expires_at := some (now + ttlSeconds) }) ∧
      (ms.map parseBand).length = ms.length) ∧
    ((∃ m ∈ ms, ¬ eqMatchInRange m) →
      eqCommandMem st uid ms now = (.outOfRange, st)) := by
  have hbot := botGetUserSessionMem_live st uid now s h hl
  obtain ⟨m0, rest, rfl⟩ := List.exists_cons_of_ne_nil hne
  constructor
  · intro hall
    refine ⟨?_, by simp⟩
    unfold eqCommandMem
    rw [hbot]
    simp only [hfp]
    rw [parseEqMatches_all _ [] hall]
    simp only [List.nil_append, List.map_cons, List.isEmpty_cons]
    simp only [botUpdateUserSessionMem, memUpdateSession, h]
    simp [mergeSession, hfp]
  · intro hbad
    unfold eqCommandMem
    rw [hbot]
    simp only [hfp]
    cases hp : parseEqMatches (m0 :: rest) [] with
    | rejectedFreq f => simp
    | rejectedGain g => simp
    | bands l => exact absurd hp (parseEqMatches_reject _ hbad [] l)

/-- Fixture for the C2 witness: a live session holding a file. -/
def eqSampleSession : Session :=
  { user_id := 7
    file_path := some "downloads/in.mp3"
    settings := some defaultSettings
    created_at := some 0
    updated_at := some 0
    expires_at := some 1000 }

/-- Witness for C2 at a concrete input: `/eq --60hz +3db` on a live
session appends exactly one band (60 Hz, +3 dB, Q=1) and keeps every
other settings key. -/
theorem eq_command_bounds_witness :
    eqCommandMem [(7, eqSampleSession)] 7 [⟨60, "", 3⟩] 5 =
        (.applied,
          memSet [(7, eqSampleSession)] 7
            { eqSampleSession with
              settings := some
                { eqSampleSession.settings.getD emptySettings with
                  eq := some (([⟨60, "", 3⟩] : List EqMatch).map parseBand) }
              updated_at := some 5
              expires_at := some (5 + ttlSeconds) }) ∧
      (([⟨60, "", 3⟩] : List EqMatch).map parseBand).length = 1 :=
  (eq_command_bounds [(7, eqSampleSession)] 7 5 eqSampleSession "downloads/in.mp3"
    [⟨60, "", 3⟩] (by decide) (by decide) (by decide) (by decide)).1 (by decide)

/-! ### C4 -/

/-- C4 counterexample: the claim says `update` returns `false` when no
live session exists, identically on both backends; on the in-memory
backend a session expired at t=10 is still in the dict at t=100, so no
live session exists (`get_session` returns `None`), yet
`update_session` succeeds and returns `True` — its only guard is key
presence, not liveness. (The durable backend diverges from the claim on
the other conjunct: its update never touches `updated_at`/`expires_at`,
so the TTL is not refreshed.) -/
theorem update_true_without_live_session :
    (memUpdateSession [(7, { user_id := 7, expires_at := some 10 })] 7 {} 100).1 = true ∧
      (memGetSession [(7, { user_id := 7, expires_at := some 10 })] 7 100).1 = none := by
  decide

/-- C4 (amended): the backends do not have identical semantics. The
in-memory `update_session` merges the given top-level fields, sets
`updated_at := now` and `expires_at := now + 5min`, and returns `true`
whenever the user has an entry in the dict — live or expired — and
`false` only when no entry exists. The durable path (bot wrapper plus
`DatabaseManager.update_user_session`) returns `true` exactly when a
live session exists and merges the fields into its row, but leaves
`updated_at` and `expires_at` of every row unchanged: no TTL refresh. -/
theorem update_semantics_amended :
    (∀ (st : MemStore) (uid : Int) (u : SessionUpdates) (now : Int) (s : Session),
        memLookup st uid = some s →
        memUpdateSession st uid u now =
          (true,
            memSet st uid
              { mergeSession s u with
                updated_at := some now
                expires_at := some (now + ttlSeconds) })) ∧
    (∀ (st : MemStore) (uid : Int) (u : SessionUpdates) (now : Int),
        memLookup st uid = none → memUpdateSession st uid u now = (false, st)) ∧
    (∀ (tbl : DbTable) (uid now : Int) (u : SessionUpdates) (s : Session) (sid : Int),
        dbGetUserSession tbl uid now = some s → s.id = some sid →
        botUpdateUserSessionDb tbl uid now u =
          (true, tbl.map (fun r => if r.id = some sid then mergeSession r u else r)) ∧
        (botUpdateUserSessionDb tbl uid now u).2.map
            (fun r => (r.updated_at, r.expires_at)) =
          tbl.map (fun r => (r.updated_at, r.expires_at))) ∧
    (∀ (tbl : DbTable) (uid now : Int) (u : SessionUpdates),
        dbGetUserSession tbl uid now = none →
        botUpdateUserSessionDb tbl uid now u = (false, tbl)) := by
  refine ⟨?_, ?_, ?_, ?_⟩
  · intro st uid u now s h
    simp [memUpdateSession, h]
  · intro st uid u now h
    simp [memUpdateSession, h]
  · intro tbl uid now u s sid hget hid
    obtain ⟨hmem, huid, hlive⟩ := dbGetUserSession_spec tbl uid now s hget
    have hany : tbl.any (fun r => r.id = some sid) = true :=
      List.any_eq_true.mpr ⟨s, hmem, by simp [hid]⟩
    constructor
    · unfold botUpdateUserSessionDb
      rw [hget]
      simp [dbUpdateUserSession, hid, hany]
    · unfold botUpdateUserSessionDb
      rw [hget]
      simp only [dbUpdateUserSession, hid, Option.getD_some, List.map_map]
      refine List.map_congr_left ?_
      intro r _
      by_cases hr : r.id = some sid <;> simp [hr, mergeSession]
  · intro tbl uid now u h
    simp [botUpdateUserSessionDb, h]

/-- Fixture for the C4 witness: a live session row in the in-memory
store. -/
def updateSampleSession : Session :=
  { user_id := 7
    settings := some defaultSettings
    created_at := some 0
    updated_at := some 0
    expires_at := some 300 }

/-- Witness for C4 (amended) at a concrete input: updating the stored
file path of a present session succeeds and refreshes both timestamps
on the in-memory backend. -/
theorem update_semantics_amended_witness :
    memUpdateSession [(7, updateSampleSession)] 7
        { file_path := some (some "downloads/new.mp3") } 50 =
      (true,
        memSet [(7, updateSampleSession)] 7
          { mergeSession updateSampleSession
              { file_path := some (some "downloads/new.mp3") } with
            updated_at := some 50
            expires_at := some (50 + ttlSeconds) }) :=
  update_semantics_amended.1 [(7, updateSampleSession)] 7
    { file_path := some (some "downloads/new.mp3") } 50 updateSampleSession (by decide)

/-! ### C5 -/

/-- C5 counterexample: on the durable backend with an empty table,
`get_or_create` inserts a payload that carries no `settings` key at all
(database.py 81-89), so the fresh session it returns does not carry the
enumerated default settings. -/
theorem durable_fresh_session_lacks_settings :
    (botGetUserSessionDb [] 7 0 99 true).1.settings = none ∧
      (botGetUserSessionDb [] 7 0 99 true).1.settings ≠ some defaultSettings := by
  decide

/-- C5 (amended): `get_or_create` never returns a session whose
`expires_at` has passed, on either backend. When no live session
exists, the in-memory backend returns a fresh session carrying exactly
the enumerated defaults, as does the local fallback used when the
durable insert fails; but the fresh session of a successful durable
insert carries no settings record at all (the defaults only appear at
read sites via `.get`), and its TTL is 5 minutes from creation. -/
theorem get_or_create_amended :
    (∀ (st : MemStore) (uid now e : Int),
        (botGetUserSessionMem st uid now).1.expires_at = some e → now < e) ∧
    (∀ (tbl : DbTable) (uid now fid e : Int) (insOk : Bool),
        (botGetUserSessionDb tbl uid now fid insOk).1.expires_at = some e → now < e) ∧
    (∀ (st : MemStore) (uid now : Int),
        (memGetSession st uid now).1 = none →
        (botGetUserSessionMem st uid now).1 = memDefaultSession uid now) ∧
    (∀ (uid now : Int), (memDefaultSession uid now).settings = some defaultSettings) ∧
    (∀ (tbl : DbTable) (uid now fid : Int),
        dbGetUserSession tbl uid now = none →
        (botGetUserSessionDb tbl uid now fid true).1.settings = none ∧
        (botGetUserSessionDb tbl uid now fid true).1.expires_at =
          some (now + ttlSeconds)) ∧
    (∀ (tbl : DbTable) (uid now fid : Int),
        dbGetUserSession tbl uid now = none →
        (botGetUserSessionDb tbl uid now fid false).1 = createDefaultSession uid) := by
  refine ⟨?_, ?_, ?_, ?_, ?_, ?_⟩
  · intro st uid now e h
    unfold botGetUserSessionMem at h
    cases hg : memGetSession st uid now with
    | mk fst snd =>
        rw [hg] at h
        cases fst with
        | some s =>
            have hlive := memGetSession_fst_live st uid now s (by rw [hg])
            simp only at h
            simpa [sessionLive, h] using hlive
        | none =>
            simp [memCreateSession, memDefaultSession, ttlSeconds] at h
            omega
  · intro tbl uid now fid e insOk h
    unfold botGetUserSessionDb at h
    cases hg : dbGetUserSession tbl uid now with
    | some s =>
        rw [hg] at h
        simp only at h
        have hlive := (dbGetUserSession_spec tbl uid now s hg).2.2
        simpa [sessionLive, h] using hlive
    | none =>
        rw [hg] at h
        cases insOk with
        | true =>
            simp [dbCreateUserSession, ttlSeconds] at h
            omega
        | false =>
            simp [dbCreateUserSession, createDefaultSession] at h
  · intro st uid now h
    unfold botGetUserSessionMem
    cases hg : memGetSession st uid now with
    | mk fst snd =>
        rw [hg] at h
        simp only at h
        subst h
        simp [memCreateSession]
  · intro uid now
    rfl
  · intro tbl uid now fid h
    unfold botGetUserSessionDb
    rw [h]
    simp [dbCreateUserSession]
  · intro tbl uid now fid h
    unfold botGetUserSessionDb
    rw [h]
    simp [dbCreateUserSession]

/-- Witness for C5 (amended) at a concrete input: a first access for
user 7 on an empty in-memory store yields the fresh default session,
which carries the enumerated default settings and a 5-minute TTL. -/
theorem get_or_create_amended_witness :
    (botGetUserSessionMem [] 7 0).1 = memDefaultSession 7 0 ∧
      (memDefaultSession 7 0).settings = some defaultSettings :=
  ⟨get_or_create_amended.2.2.1 [] 7 0 (by decide),
    get_or_create_amended.2.2.2.1 7 0⟩

/-! ### C8 -/

/-- Fixture for C8: a live session whose bitrate has been configured to
128k (so every other settings key is also set). -/
def fmtSampleSession : Session :=
  { user_id := 7
    file_path := some "downloads/in.mp3"
    settings := some { defaultSettings with bitrate := some "128k" }
    created_at := some 0
    updated_at := some 0
    expires_at := some 1000 }

/-- C8 counterexample: the claim says every configuration action leaves
the fields it does not name unchanged, but `handle_format_selection`
sends `{'settings': {'format': code}}`, and the top-level merge replaces
the whole settings dict: after selecting the `wav` format, the
previously configured bitrate key (128k) is gone. -/
theorem format_selection_drops_bitrate :
    ((memLookup [(7, fmtSampleSession)] 7).map
        (fun s => (s.settings.getD emptySettings).bitrate) = some (some "128k")) ∧
      ((memLookup (handleFormatSelection [(7, fmtSampleSession)] 7 "format_wav" 5) 7).map
        (fun s => (s.settings.getD emptySettings).bitrate) = some none) := by
  decide

/-- C8 (amended): for a live session, the bitrate, sample-rate,
channel, bass-boost and (novel) effect selections read the whole
settings dict, change only their own key and write the dict back, so
every other settings key and session field keeps its prior value (with
the TTL refreshed); format selection instead replaces the entire
settings dict with one carrying only `format`, dropping every other
previously configured key. -/
theorem settings_update_frame_amended
    (st : MemStore) (uid now : Int) (s : Session) (data : String)
    (h : memLookup st uid = some s) (hl : sessionLive s now = true) :
    (memLookup (handleBitrateSelection st uid data now) uid =
        some { s with
          settings := some { s.settings.getD emptySettings with
            bitrate := some (stripTag "bitrate_" data) }
          updated_at := some now
          expires_at := some (now + ttlSeconds) }) ∧
    (memLookup (handleSampleRateSelection st uid data now) uid =
        some { s with
          settings := some { s.settings.getD emptySettings with
            sample_rate := some ((stripTag "sample_" data).toInt?.getD 0) }
          updated_at := some now
          expires_at := some (now + ttlSeconds) }) ∧
    (memLookup (handleChannelSelection st uid data now) uid =
        some { s with
          settings := some { s.settings.getD emptySettings with
            channels := some ((stripTag "channels_" data).toInt?.getD 0) }
          updated_at := some now
          expires_at := some (now + ttlSeconds) }) ∧
    (memLookup (handleBassBoostSelection st uid data now) uid =
        some { s with
          settings := some { s.settings.getD emptySettings with
            bass_boost := some ((stripTag "bass_" data).toInt?.getD 0) }
          updated_at := some now
          expires_at := some (now + ttlSeconds) }) ∧
    (stripTag "effect_" data ∉ (s.settings.getD emptySettings).effects.getD [] →
      memLookup (handleEffectSelection st uid data now) uid =
        some { s with
          settings := some { s.settings.getD emptySettings with
            effects := some ((s.settings.getD emptySettings).effects.getD [] ++
              [stripTag "effect_" data]) }
          updated_at := some now
          expires_at := some (now + ttlSeconds) }) ∧
    (data ≠ "format_more" →
      memLookup (handleFormatSelection st uid data now) uid =
        some { s with
          settings := some { emptySettings with
            format := some (stripTag "format_" data) }
          updated_at := some now
          expires_at := some (now + ttlSeconds) }) := by
  have hbot := botGetUserSessionMem_live st uid now s h hl
  refine ⟨?_, ?_, ?_, ?_, ?_, ?_⟩
  · simp [handleBitrateSelection, hbot, botUpdateUserSessionMem, memUpdateSession, h,
      memLookup_memSet_self, mergeSession]
  · simp [handleSampleRateSelection, hbot, botUpdateUserSessionMem, memUpdateSession, h,
      memLookup_memSet_self, mergeSession]
  · simp [handleChannelSelection, hbot, botUpdateUserSessionMem, memUpdateSession, h,
      memLookup_memSet_self, mergeSession]
  · simp [handleBassBoostSelection, hbot, botUpdateUserSessionMem, memUpdateSession, h,
      memLookup_memSet_self, mergeSession]
  · intro heff
    simp [handleEffectSelection, hbot, heff, botUpdateUserSessionMem, memUpdateSession, h,
      memLookup_memSet_self, mergeSession]
  · intro hne
    unfold handleFormatSelection
    rw [if_neg hne]
    simp [botUpdateUserSessionMem, memUpdateSession, h, memLookup_memSet_self,
      mergeSession]

/-- Witness for C8 (amended) at a concrete input: selecting the `wav`
format on a session whose bitrate was 128k stores a settings dict
carrying only the format key. -/
theorem settings_update_frame_amended_witness :
    memLookup (handleFormatSelection [(7, fmtSampleSession)] 7 "format_wav" 5) 7 =
      some { fmtSampleSession with
        settings := some { emptySettings with
          format := some (stripTag "format_" "format_wav") }
        updated_at := some 5
        expires_at := some (5 + ttlSeconds) } :=
  (settings_update_frame_amended [(7, fmtSampleSession)] 7 5 fmtSampleSession
    "format_wav" (by decide) (by decide)).2.2.2.2.2 (by decide)

/-! ### C9 -/

/-- Fixture for the C9 counterexample: an expired session that still
owns its input artifact. -/
def sweepSampleSession : Session :=
  { user_id := 7
    file_path := some "downloads/7_1_input.mp3"
    settings := some defaultSettings
    created_at := some 0
    updated_at := some 0
    expires_at := some 10 }

/-- C9 counterexample: the claim says the owned artifact file is
deleted whenever the session is destroyed by any path, including the
expiry sweep; but `cleanup_expired` only deletes dict entries — after
the sweep at t=100 the expired session is gone while its artifact is
still on disk. -/
theorem expiry_sweep_leaves_artifact :
    botCleanupSweepMem [(7, sweepSampleSession)] ["downloads/7_1_input.mp3"] 100 =
        ([], ["downloads/7_1_input.mp3"]) ∧
      sweepSampleSession.file_path = some "downloads/7_1_input.mp3" := by
  decide

/-- C9 (amended): only the explicit deletion path removes the artifact:
`delete_user_session` on a live session deletes the file (best-effort —
when `os.remove` fails the error is swallowed and the session is still
deleted) and then the session. The expiry sweep passes the filesystem
through untouched, and a new upload for the same user overwrites the
session's `file_path` while leaving the previously owned artifact on
disk. -/
theorem artifact_cleanup_amended
    (st : MemStore) (fs : List String) (uid now : Int) (s : Session) (fp : String)
    (h : memLookup st uid = some s) (hl : sessionLive s now = true)
    (hfp : s.file_path = some fp) (hmem : fp ∈ fs) :
    (botDeleteUserSessionMem st fs uid now true = (memErase st uid, removeFile fs fp)) ∧
    (botDeleteUserSessionMem st fs uid now false = (memErase st uid, fs)) ∧
    (∀ (st2 : MemStore) (fs2 : List String) (now2 : Int),
      (botCleanupSweepMem st2 fs2 now2).2 = fs2) ∧
    (∀ (newPath newName : String) (info : List (String × String)),
      fp ∈ (handleAudioIngestMem st fs uid now newPath newName info).2 ∧
      memLookup (handleAudioIngestMem st fs uid now newPath newName info).1 uid =
        some { s with
          file_path := some newPath
          original_filename := some newName
          file_info := info
          updated_at := some now
          expires_at := some (now + ttlSeconds) }) := by
  have hget := memGetSession_live st uid now s h hl
  refine ⟨?_, ?_, ?_, ?_⟩
  · simp [botDeleteUserSessionMem, hget, hfp, hmem, memDeleteSession, h]
  · simp [botDeleteUserSessionMem, hget, hfp, hmem, memDeleteSession, h]
  · intro st2 fs2 now2
    rfl
  · intro newPath newName info
    constructor
    · exact List.mem_cons_of_mem _ hmem
    · simp [handleAudioIngestMem, botGetUserSessionMem, hget, botUpdateUserSessionMem,
        memUpdateSession, h, memLookup_memSet_self, mergeSession]

/-- Fixture for the C9 witness: a live session owning its artifact. -/
def delSampleSession : Session :=
  { user_id := 7
    file_path := some "downloads/7_1_input.mp3"
    settings := some defaultSettings
    created_at := some 0
    updated_at := some 0
    expires_at := some 1000 }

/-- Witness for C9 (amended) at a concrete input: cancelling while the
session is live removes both the session and its artifact. -/
theorem artifact_cleanup_amended_witness :
    botDeleteUserSessionMem [(7, delSampleSession)] ["downloads/7_1_input.mp3"] 7 5 true =
      (memErase [(7, delSampleSession)] 7,
        removeFile ["downloads/7_1_input.mp3"] "downloads/7_1_input.mp3") :=
  (artifact_cleanup_amended [(7, delSampleSession)] ["downloads/7_1_input.mp3"] 7 5
    delSampleSession "downloads/7_1_input.mp3"
    (by decide) (by decide) (by decide) (by decide)).1

/-! ### C3 -/

theorem convertStep_trace (ps3 : PipeState) (outF : String) (c x : Bool)
    (tr : List StageExec) : (convertStep ps3 outF c x tr).trace = tr := by
  simp [convertStep, apply_ite (f := RunResult.trace)]

/-- C3: when every invoked engine stage succeeds, `process_audio`
invokes exactly the enabled stages, in the fixed order Equalization →
Effects → Normalization → Conversion (enabledness is a pure function of
the settings record, so the order in which the settings fields were
configured is irrelevant); each invoked stage consumes the previous
invocation's output (the first consumes the stored input), and
Conversion is always the last invocation. -/
theorem stage_order_fixed (fs0 : List String) (input : String) (st : SettingsDict)
    (oc : PipelineOutcome) (uid ts : Int)
    (h1 : oc.eqOk = true) (h2 : oc.effectsOk = true) (h3 : oc.normOk = true) :
    ((processAudio fs0 input st oc uid ts).trace.map StageExec.stage =
        stageOrder.filter (stageEnabled st)) ∧
      chainedFrom input (processAudio fs0 input st oc uid ts).trace = true ∧
      ((processAudio fs0 input st oc uid ts).trace.map StageExec.stage).getLast? =
        some Stage.convert := by
  obtain ⟨e, f, n, c, x⟩ := oc
  simp only at h1 h2 h3
  subst h1
  subst h2
  subst h3
  cases heq : eqEnabled st <;> cases hfx : effectsEnabled st <;>
    cases hnm : normalizeEnabled st <;>
      simp [processAudio, optStage, stageOrder, stageEnabled, chainedFrom,
        heq, hfx, hnm, convertStep_trace]

/-- Fixture for the C3 witness: settings enabling EQ and normalization
but no effects. -/
def orderSampleSettings : SettingsDict :=
  { defaultSettings with eq := some [⟨60, 3, 1⟩], normalize := some true }

/-- Witness for C3 at a concrete input: with EQ and normalization
enabled and all stages succeeding, the invocation order is
EQ → Normalization → Conversion, chained from the input artifact. -/
theorem stage_order_fixed_witness :
    ((processAudio ["downloads/in.mp3"] "downloads/in.mp3" orderSampleSettings
        ⟨true, true, true, true, true⟩ 7 2).trace.map StageExec.stage =
      stageOrder.filter (stageEnabled orderSampleSettings)) ∧
      chainedFrom "downloads/in.mp3"
        (processAudio ["downloads/in.mp3"] "downloads/in.mp3" orderSampleSettings
          ⟨true, true, true, true, true⟩ 7 2).trace = true ∧
      ((processAudio ["downloads/in.mp3"] "downloads/in.mp3" orderSampleSettings
          ⟨true, true, true, true, true⟩ 7 2).trace.map StageExec.stage).getLast? =
        some Stage.convert :=
  stage_order_fixed ["downloads/in.mp3"] "downloads/in.mp3" orderSampleSettings
    ⟨true, true, true, true, true⟩ 7 2 rfl rfl rfl

/-! ### C1 -/

theorem removeFile_eq_filter (fs : List String) (p : String) :
    removeFile fs p = fs.filter (fun q => !decide (q = p)) := by
  induction fs with
  | nil => rfl
  | cons a rest ih =>
      by_cases ha : a = p <;> simp [removeFile, ha, ih, List.filter_cons]

theorem removeFiles_cons (fs : List String) (a : String) (ps : List String) :
    removeFiles fs (a :: ps) = removeFiles (removeFile fs a) ps := rfl

theorem removeFiles_eq_filter (ps : List String) :
    ∀ fs, removeFiles fs ps = fs.filter (fun q => !decide (q ∈ ps)) := by
  induction ps with
  | nil =>
      intro fs
      simp [removeFiles]
  | cons a ps ih =>
      intro fs
      rw [removeFiles_cons, ih, removeFile_eq_filter, List.filter_filter]
      apply List.filter_congr
      intro q _
      by_cases h1 : q = a <;> by_cases h2 : q ∈ ps <;> simp [h1, h2]

theorem removeFiles_cancel (temps pre fs0 : List String)
    (hpre : ∀ q ∈ pre, q ∈ temps) (hfs0 : ∀ q ∈ fs0, q ∉ temps) :
    removeFiles (pre ++ fs0) temps = fs0 := by
  rw [removeFiles_eq_filter, List.filter_append]
  have h1 : pre.filter (fun q => !decide (q ∈ temps)) = [] := by
    rw [List.filter_eq_nil_iff]
    intro a ha
    simp [hpre a ha]
  have h2 : fs0.filter (fun q => !decide (q ∈ temps)) = fs0 := by
    rw [List.filter_eq_self]
    intro a ha
    simp [hfs0 a ha]
  rw [h1, h2, List.nil_append]

theorem removeFiles_cancel_cons (temps pre fs0 : List String) (a : String)
    (hpre : ∀ q ∈ pre, q ∈ temps) (hfs0 : ∀ q ∈ fs0, q ∉ temps)
    (ha : a ∉ temps) :
    removeFiles (a :: (pre ++ fs0)) temps = a :: fs0 := by
  have hrest := removeFiles_cancel temps pre fs0 hpre hfs0
  rw [removeFiles_eq_filter] at hrest ⊢
  simp [List.filter_cons, ha, hrest]

theorem optStage_state (stage : Stage) (en ok : Bool) (o : String) (ps : PipeState)
    (fs0 allowed : List String)
    (hfs : ps.fs = ps.temps.reverse ++ fs0)
    (htm : ∀ t ∈ ps.temps, t ∈ allowed) :
    ((optStage stage en ok o ps).fs = (optStage stage en ok o ps).temps.reverse ++ fs0) ∧
      (∀ t ∈ (optStage stage en ok o ps).temps, t ∈ o :: allowed) := by
  cases en with
  | false =>
      refine ⟨by simpa [optStage] using hfs, ?_⟩
      intro t ht
      exact List.mem_cons_of_mem _ (htm t (by simpa [optStage] using ht))
  | true =>
      cases ok with
      | false =>
          refine ⟨by simpa [optStage] using hfs, ?_⟩
          intro t ht
          exact List.mem_cons_of_mem _ (htm t (by simpa [optStage] using ht))
      | true =>
          constructor
          · simp [optStage, hfs]
          · intro t ht
            simp [optStage] at ht
            rcases ht with ht | ht
            · exact List.mem_cons_of_mem _ (htm t ht)
            · subst ht
              exact List.mem_cons_self _ _

theorem convertStep_facts (fs0 : List String) (input outF : String) (ps3 : PipeState)
    (c x : Bool)
    (hfs3 : ps3.fs = ps3.temps.reverse ++ fs0)
    (htF : ∀ q ∈ fs0, q ∉ ps3.temps)
    (hoT : outF ∉ ps3.temps)
    (hin : input ∈ fs0) (hof : outF ∉ fs0) :
    ∀ tr : List StageExec,
      input ∈ (convertStep ps3 outF c x tr).fs ∧
      (∀ p ∈ (convertStep ps3 outF c x tr).fs, p ∈ fs0 ∨ p = outF) ∧
      ((convertStep ps3 outF c x tr).ok = true → (convertStep ps3 outF c x tr).fs = fs0) ∧
      (convertStep ps3 outF c x tr).ok = (c && x) ∧
      (outF ∈ (convertStep ps3 outF c x tr).fs ↔ (x = true ∧ c = false)) := by
  intro tr
  have hrevT : ∀ q ∈ ps3.temps.reverse, q ∈ ps3.temps := by
    intro q hq
    exact List.mem_reverse.mp hq
  have hnm : outF ∉ ps3.fs := by
    rw [hfs3]
    intro hmem
    rcases List.mem_append.mp hmem with h | h
    · exact hoT (List.mem_reverse.mp h)
    · exact hof h
  have hcanc : removeFiles ps3.fs ps3.temps = fs0 := by
    rw [hfs3]
    exact removeFiles_cancel ps3.temps ps3.temps.reverse fs0 hrevT htF
  cases x with
  | false =>
      have hdec : decide (outF ∈ ps3.fs) = false := decide_eq_false hnm
      have hstep : convertStep ps3 outF c false tr =
          ⟨false, removeFiles ps3.fs ps3.temps, tr⟩ := by
        simp [convertStep, hdec]
      rw [hstep, hcanc]
      refine ⟨hin, fun p hp => Or.inl hp, fun _ => rfl, by simp, by simp [hof]⟩
  | true =>
      cases c with
      | false =>
          have hstep : convertStep ps3 outF false true tr =
              ⟨false, removeFiles (outF :: ps3.fs) ps3.temps, tr⟩ := by
            simp [convertStep]
          have hclean : removeFiles (outF :: ps3.fs) ps3.temps = outF :: fs0 := by
            rw [hfs3]
            exact removeFiles_cancel_cons ps3.temps ps3.temps.reverse fs0 outF hrevT htF hoT
          rw [hstep, hclean]
          refine ⟨List.mem_cons_of_mem _ hin, ?_, ?_, by simp, by simp⟩
          · intro p hp
            rcases List.mem_cons.mp hp with hp | hp
            · exact Or.inr hp
            · exact Or.inl hp
          · intro hcontra
            exact absurd hcontra (by simp)
      | true =>
          have hstep : convertStep ps3 outF true true tr =
              ⟨true, removeFiles (removeFile (outF :: ps3.fs) outF) ps3.temps, tr⟩ := by
            simp [convertStep]
          have hclean :
              removeFiles (removeFile (outF :: ps3.fs) outF) ps3.temps = fs0 := by
            rw [removeFile_cons_self, removeFile_of_not_mem _ _ hnm, hcanc]
          rw [hstep, hclean]
          exact ⟨hin, fun p hp => Or.inl hp, fun _ => rfl, by simp, by simp [hof]⟩

/-- C1 counterexample: the claim says any enabled stage's failure
aborts the run immediately; but with the effects stage enabled and
failing (`apply_pedalboard_effects` returns `False`) while conversion
succeeds, `process_audio` does not abort: it continues past the failed
stage, runs conversion on the unprocessed artifact and reports success
(the effect is silently dropped). -/
theorem effects_failure_does_not_abort :
    effectsEnabled { emptySettings with effects := some ["reverb"] } = true ∧
      (⟨true, false, true, true, true⟩ : PipelineOutcome).effectsOk = false ∧
      (processAudio ["downloads/7_1_input.mp3"] "downloads/7_1_input.mp3"
          { emptySettings with effects := some ["reverb"] }
          ⟨true, false, true, true, true⟩ 7 2).ok = true ∧
      (processAudio ["downloads/7_1_input.mp3"] "downloads/7_1_input.mp3"
          { emptySettings with effects := some ["reverb"] }
          ⟨true, false, true, true, true⟩ 7 2).trace.map StageExec.stage =
        [Stage.effects, Stage.convert] := by
  decide

/-- C1 (amended): for a run whose generated artifact names are fresh
and distinct, (i) the original input is never deleted; (ii) the only
artifact the run can leave behind beyond `fs0` is the conversion
output; (iii) a successful run restores the filesystem exactly (the
delivered output is deleted after the in-run upload, so nothing of the
run remains); (iv) an equalization failure aborts with the filesystem
untouched; (v) effects and normalization failures do NOT abort — after
a non-aborting start the run's outcome is decided solely by the
conversion flags; (vi) a conversion output file remains on disk exactly
when conversion produced a file but reported failure. -/
theorem pipeline_cleanup_amended
    (fs0 : List String) (input : String) (st : SettingsDict) (oc : PipelineOutcome)
    (uid ts : Int)
    (hin : input ∈ fs0)
    (hfr : ∀ p ∈ [eqFileName uid ts, effectsFileName uid ts, normFileName uid ts,
        outputFileName uid ts (st.format.getD "mp3")], p ∉ fs0)
    (hnd : [eqFileName uid ts, effectsFileName uid ts, normFileName uid ts,
        outputFileName uid ts (st.format.getD "mp3")].Nodup) :
    input ∈ (processAudio fs0 input st oc uid ts).fs ∧
      (∀ p ∈ (processAudio fs0 input st oc uid ts).fs,
        p ∈ fs0 ∨ p = outputFileName uid ts (st.format.getD "mp3")) ∧
      ((processAudio fs0 input st oc uid ts).ok = true →
        (processAudio fs0 input st oc uid ts).fs = fs0) ∧
      ((eqEnabled st && !oc.eqOk) = true →
        (processAudio fs0 input st oc uid ts).ok = false ∧
        (processAudio fs0 input st oc uid ts).fs = fs0) ∧
      ((eqEnabled st && !oc.eqOk) = false →
        (processAudio fs0 input st oc uid ts).ok =
          (oc.convertOk && oc.convertFileExists)) ∧
      (outputFileName uid ts (st.format.getD "mp3") ∈
          (processAudio fs0 input st oc uid ts).fs ↔
        ((eqEnabled st && !oc.eqOk) = false ∧ oc.convertFileExists = true ∧
          oc.convertOk = false)) := by
  have hef : eqFileName uid ts ∉ fs0 := hfr _ (by simp)
  have hff : effectsFileName uid ts ∉ fs0 := hfr _ (by simp)
  have hnf : normFileName uid ts ∉ fs0 := hfr _ (by simp)
  have hof : outputFileName uid ts (st.format.getD "mp3") ∉ fs0 := hfr _ (by simp)
  simp only [List.nodup_cons, List.mem_cons, List.mem_singleton, List.not_mem_nil,
    or_false, not_or, List.nodup_nil, and_true] at hnd
  obtain ⟨⟨hd1, hd2, hd3⟩, ⟨hd4, hd5⟩, hd6, -⟩ := hnd
  cases habort : (eqEnabled st && !oc.eqOk) with
  | true =>
      have hr : processAudio fs0 input st oc uid ts =
          { ok := false, fs := fs0, trace := [⟨Stage.eq, input, eqFileName uid ts⟩] } := by
        unfold processAudio
        rw [habort]
        simp
      rw [hr]
      refine ⟨hin, fun p hp => Or.inl hp, ?_, fun _ => ⟨rfl, rfl⟩, ?_, ?_⟩
      · intro hcontra
        exact absurd hcontra (by simp)
      · intro hcontra
        exact absurd hcontra (by simp)
      · simp [hof]
  | false =>
      unfold processAudio
      rw [habort]
      simp only [Bool.false_eq_true, if_false]
      cases h1 : eqEnabled st with
      | true =>
          simp only [if_true]
          obtain ⟨hfs2, htm2⟩ := optStage_state Stage.effects (effectsEnabled st)
            oc.effectsOk (effectsFileName uid ts)
            ⟨eqFileName uid ts, [eqFileName uid ts], eqFileName uid ts :: fs0,
              [⟨Stage.eq, input, eqFileName uid ts⟩]⟩ fs0 [eqFileName uid ts]
            (by simp) (by simp)
          obtain ⟨hfs3, htm3⟩ := optStage_state Stage.normalize (normalizeEnabled st)
            oc.normOk (normFileName uid ts)
            (optStage Stage.effects (effectsEnabled st) oc.effectsOk
              (effectsFileName uid ts)
              ⟨eqFileName uid ts, [eqFileName uid ts], eqFileName uid ts :: fs0,
                [⟨Stage.eq, input, eqFileName uid ts⟩]⟩)
            fs0 (effectsFileName uid ts :: [eqFileName uid ts]) hfs2 htm2
          have htF : ∀ q ∈ fs0, q ∉ (optStage Stage.normalize (normalizeEnabled st)
              oc.normOk (normFileName uid ts)
              (optStage Stage.effects (effectsEnabled st) oc.effectsOk
                (effectsFileName uid ts)
                ⟨eqFileName uid ts, [eqFileName uid ts], eqFileName uid ts :: fs0,
                  [⟨Stage.eq, input, eqFileName uid ts⟩]⟩)).temps := by
            intro q hq hqt
            have hq3 := htm3 q hqt
            simp only [List.mem_cons, List.not_mem_nil, or_false] at hq3
            rcases hq3 with h | h | h
            · exact hnf (h ▸ hq)
            · exact hff (h ▸ hq)
            · exact hef (h ▸ hq)
          have hoT : outputFileName uid ts (st.format.getD "mp3") ∉
              (optStage Stage.normalize (normalizeEnabled st)
                oc.normOk (normFileName uid ts)
                (optStage Stage.effects (effectsEnabled st) oc.effectsOk
                  (effectsFileName uid ts)
                  ⟨eqFileName uid ts, [eqFileName uid ts], eqFileName uid ts :: fs0,
                    [⟨Stage.eq, input, eqFileName uid ts⟩]⟩)).temps := by
            intro hqt
            have hq3 := htm3 _ hqt
            simp only [List.mem_cons, List.not_mem_nil, or_false] at hq3
            rcases hq3 with h | h | h
            · exact hd6 h.symm
            · exact hd5 h.symm
            · exact hd3 h.symm
          have hend := convertStep_facts fs0 input
            (outputFileName uid ts (st.format.getD "mp3")) _
            oc.convertOk oc.convertFileExists hfs3 htF hoT hin hof
          refine ⟨(hend _).1, (hend _).2.1, (hend _).2.2.1, ?_,
            fun _ => (hend _).2.2.2.1, ((hend _).2.2.2.2).trans (by simp)⟩
          intro hcontra
          exact absurd hcontra (by simp)
      | false =>
          simp only [Bool.false_eq_true, if_false]
          obtain ⟨hfs2, htm2⟩ := optStage_state Stage.effects (effectsEnabled st)
            oc.effectsOk (effectsFileName uid ts)
            ⟨input, [], fs0, []⟩ fs0 [] (by simp) (by simp)
          obtain ⟨hfs3, htm3⟩ := optStage_state Stage.normalize (normalizeEnabled st)
            oc.normOk (normFileName uid ts)
            (optStage Stage.effects (effectsEnabled st) oc.effectsOk
              (effectsFileName uid ts) ⟨input, [], fs0, []⟩)
            fs0 (effectsFileName uid ts :: []) hfs2 htm2
          have htF : ∀ q ∈ fs0, q ∉ (optStage Stage.normalize (normalizeEnabled st)
              oc.normOk (normFileName uid ts)
              (optStage Stage.effects (effectsEnabled st) oc.effectsOk
                (effectsFileName uid ts) ⟨input, [], fs0, []⟩)).temps := by
            intro q hq hqt
            have hq3 := htm3 q hqt
            simp only [List.mem_cons, List.not_mem_nil, or_false] at hq3
            rcases hq3 with h | h
            · exact hnf (h ▸ hq)
            · exact hff (h ▸ hq)
          have hoT : outputFileName uid ts (st.format.getD "mp3") ∉
              (optStage Stage.normalize (normalizeEnabled st)
                oc.normOk (normFileName uid ts)
                (optStage Stage.effects (effectsEnabled st) oc.effectsOk
                  (effectsFileName uid ts) ⟨input, [], fs0, []⟩)).temps := by
            intro hqt
            have hq3 := htm3 _ hqt
            simp only [List.mem_cons, List.not_mem_nil, or_false] at hq3
            rcases hq3 with h | h
            · exact hd6 h.symm
            · exact hd5 h.symm
          have hend := convertStep_facts fs0 input
            (outputFileName uid ts (st.format.getD "mp3")) _
            oc.convertOk oc.convertFileExists hfs3 htF hoT hin hof
          refine ⟨(hend _).1, (hend _).2.1, (hend _).2.2.1, ?_,
            fun _ => (hend _).2.2.2.1, ((hend _).2.2.2.2).trans (by simp)⟩
          intro hcontra
          exact absurd hcontra (by simp)

/-- Witness for C1 (amended) at a concrete input: EQ enabled and all
stages succeeding, the run succeeds and the filesystem afterwards is
exactly the original one (all intermediates and the delivered output
deleted, the input intact). -/
theorem pipeline_cleanup_amended_witness :
    (processAudio ["downloads/7_1_input.mp3"] "downloads/7_1_input.mp3"
        { defaultSettings with eq := some [⟨60, 3, 1⟩] }
        ⟨true, true, true, true, true⟩ 7 2).fs = ["downloads/7_1_input.mp3"] :=
  (pipeline_cleanup_amended ["downloads/7_1_input.mp3"] "downloads/7_1_input.mp3"
    { defaultSettings with eq := some [⟨60, 3, 1⟩] }
    ⟨true, true, true, true, true⟩ 7 2
    (by decide) (by decide) (by decide)).2.2.1 (by decide)

end TarangFX
